import Mathlib

/-!
Shallow embedding of `src/docx/parts/document.py` (class `DocumentPart`):
the part/relationship graph of an OPC package, the macro-stripping
converter invoked from `DocumentPart.save`, and the related-part
accessors.  Definitions follow the Python source; collaborators that the
source file only calls (the `docx.opc` package layer) are modelled from
the specification and marked as such in their doc comments.
-/

namespace DocxDocm

/-- A relationship: a typed, directed edge from a source (a part or the
package root) to a target part (by partname) or an external URI.
Mirrors `docx.opc` `_Relationship` as described by the spec (rId,
reltype, target, is_external). -/
structure Rel where
  rId : String
  reltype : String
  target : String
  is_external : Bool
deriving Repr, DecidableEq

/-- A part object: partname (identity), content type, and its outgoing
relationship collection.  The payload is opaque and omitted. -/
structure Part where
  partname : String
  content_type : String
  rels : List Rel
deriving Repr, DecidableEq

mutual
/-- A WordprocessingML markup element (models an lxml element): a node
identity (standing for Python object identity), tag, attributes, and
children. -/
inductive Elem where
  | node (eid : Nat) (tag : String) (attrs : List (String × String)) (children : ElemList)

/-- The child sequence of an element. -/
inductive ElemList where
  | nil
  | cons (head : Elem) (tail : ElemList)
end

/-- Destination of a save: a filesystem path (a Python `str`) or a
file-like stream object. -/
inductive Dest where
  | path (s : String)
  | stream
deriving Repr, DecidableEq

/-- Whole-program state seen by `DocumentPart`: the package-level
relationships, the store of all live part objects (the package's part
*set* is the subset reachable from the package rels, see `partsNames`),
the partname of the document part (`self`), and the document part's XML
element (`self._element`). -/
structure DocState where
  pkgRels : List Rel
  store : List Part
  docName : String
  docElement : Elem

/-! ## Content-type and relationship-type constants

`CT.WML_DOCUMENT_MACRO_ENABLED_MAIN` / `CT.WML_DOCUMENT_MAIN` and the
relationship-type URIs are fixed string constants of the
`docx.opc.constants` registry (spec section 6: "fixed constants ...
string constants, package-format-defined, not configurable"). -/

def CT_WML_DOCUMENT_MACRO_ENABLED_MAIN : String :=
  "application/vnd.ms-word.document.macroEnabled.main+xml"

def CT_WML_DOCUMENT_MAIN : String :=
  "application/vnd.openxmlformats-officedocument.wordprocessingml.document.main+xml"

/-- The three macro relationship types removed by
`_remove_macro_relationships` (verbatim from the source tuple
`macro_reltypes`). -/
def macroReltypes : List String :=
  [ "http://schemas.microsoft.com/office/2006/relationships/vbaProject"
  , "http://schemas.microsoft.com/office/2006/relationships/wordVbaData"
  , "http://schemas.openxmlformats.org/officeDocument/2006/relationships/control" ]

/-- VBA-related content types removed by `_remove_vba_parts` (verbatim
from the source tuple `vba_content_types`). -/
def vbaContentTypes : List String :=
  [ "application/vnd.ms-word.vbaProject"
  , "application/vnd.ms-word.vbaData+xml"
  , "application/vnd.ms-office.activeX"
  , "application/vnd.ms-office.activeX+xml" ]

/-- VBA-related partname patterns removed by `_remove_vba_parts`
(verbatim from the source tuple `vba_partname_patterns`). -/
def vbaPartnamePatterns : List String :=
  [ "/word/vbaProject.bin", "/word/vbaData.xml" ]

/-! ## Part store primitives -/

/-- Look a part object up by partname (partname is part identity, spec
section 3). -/
def lookupPart (store : List Part) (name : String) : Option Part :=
  store.find? (fun p => p.partname == name)

/-- Outgoing relationships of the part named `name` (empty when no such
part object exists). -/
def relsOfName (st : DocState) (name : String) : List Rel :=
  ((lookupPart st.store name).map Part.rels).getD []

/-- Replace, in the store, the part named `name` by `f` applied to it
(in-place mutation of a Python part object). -/
def updatePart (st : DocState) (name : String) (f : Part → Part) : DocState :=
  { st with store := st.store.map (fun p => if p.partname = name then f p else p) }

/-- The document part's content type, `self._content_type`. -/
def ctOf (st : DocState) : String :=
  ((lookupPart st.store st.docName).map Part.content_type).getD ""

/-! ## Markup element operations -/

def Elem.eid : Elem → Nat
  | .node i _ _ _ => i

def Elem.tag : Elem → String
  | .node _ t _ _ => t

def Elem.children : Elem → ElemList
  | .node _ _ _ cs => cs

/-- Value of attribute `a` on element `e`, if present. -/
def attrVal (e : Elem) (a : String) : Option String :=
  match e with
  | .node _ _ attrs _ => (attrs.find? (fun kv => kv.1 == a)).map Prod.snd

/-- Whether `e` matches the xpath node test `w:control[@r:id="rId"]`. -/
def isControlRef (rId : String) (e : Elem) : Bool :=
  e.tag == "w:control" && attrVal e "r:id" == some rId

mutual
/-- Net effect on the document tree of the loop
`for control_elem in self._element.xpath(...): control_elem.getparent().remove(control_elem)`:
every descendant `w:control` element whose `r:id` equals `rId` is
removed (together with its subtree). -/
def removeControls (rId : String) : Elem → Elem
  | .node i t a cs => .node i t a (removeControlsList rId cs)

def removeControlsList (rId : String) : ElemList → ElemList
  | .nil => .nil
  | .cons c cs =>
    if isControlRef rId c then removeControlsList rId cs
    else .cons (removeControls rId c) (removeControlsList rId cs)
end

mutual
/-- All node identities in the tree rooted at `e` (root included). -/
def Elem.allIds : Elem → List Nat
  | .node i _ _ cs => i :: ElemList.allIds cs

def ElemList.allIds : ElemList → List Nat
  | .nil => []
  | .cons c cs => c.allIds ++ ElemList.allIds cs
end

mutual
/-- Node identities of all elements in the tree rooted at `e` (root
included) matching `w:control[@r:id="rId"]`, in document order. -/
def xpathSelfControlIds (rId : String) : Elem → List Nat
  | .node i t a cs =>
    (if isControlRef rId (.node i t a cs) then [i] else []) ++
      xpathListControlIds rId cs

def xpathListControlIds (rId : String) : ElemList → List Nat
  | .nil => []
  | .cons c cs => xpathSelfControlIds rId c ++ xpathListControlIds rId cs
end

/-- Result of `self._element.xpath('.//w:control[@r:id="rId"]')`: the
matching proper descendants of the root, as node identities. -/
def xpathControlIds (rId : String) (e : Elem) : List Nat :=
  xpathListControlIds rId e.children

mutual
/-- Remove the node with identity `i` (and its subtree) from the tree.
Identity is unique in an lxml tree, so this models
`parent.remove(elem)` for the element `elem` with identity `i`; when no
node has identity `i` the tree is unchanged (the mutation happened in a
detached subtree). -/
def removeById (i : Nat) : Elem → Elem
  | .node j t a cs => .node j t a (removeByIdList i cs)

def removeByIdList (i : Nat) : ElemList → ElemList
  | .nil => .nil
  | .cons c cs =>
    if c.eid == i then removeByIdList i cs
    else .cons (removeById i c) (removeByIdList i cs)
end

/-- Models the statement `control_elem.getparent().remove(control_elem)`
for the element with identity `i` against the current document tree:
`getparent()` returns `None` exactly when the element is the root of its
tree, and `None.remove(...)` raises `AttributeError`.  An identity not
present in `tree` belongs to an already-detached subtree; the removal
then mutates that detached subtree and leaves `tree` unchanged. -/
def removeViaParent (tree : Elem) (i : Nat) : Except String Elem :=
  if i == tree.eid then
    .error "AttributeError: NoneType object has no attribute remove"
  else
    .ok (removeById i tree)

/-- The control-removal loop of `_remove_macro_relationships` for one
relationship id: matches are computed once by xpath, then each is
removed via its parent pointer. -/
def removeControlCascade (rId : String) (e : Elem) : Except String Elem :=
  (xpathControlIds rId e).foldlM (fun t i => removeViaParent t i) e

/-! ## String/path helpers -/

/-- Python `str.lower()` restricted to ASCII (sufficient for the fixed
`.docm` comparisons). -/
def strLower (s : String) : String := String.mk (s.data.map Char.toLower)

/-- Python `str.endswith`. -/
def strEndsWith (s suffix : String) : Bool := suffix.data.isSuffixOf s.data

/-- Python slicing `s[:-n]` (for `n ≤ len(s)`; shorter strings give ""
as in Python). -/
def pyDropRight (s : String) (n : Nat) : String :=
  String.mk (s.data.take (s.data.length - n))

/-- Last index of `c` in `cs` as an `Int`, `-1` when absent: Python
`str.rfind`. -/
def rfindPos (cs : List Char) (c : Char) : Int :=
  (((List.range cs.length).reverse).find? (fun i => cs.getD i ' ' == c)).elim (-1)
    Int.ofNat

/-- Modelled from CPython `posixpath.splitext` (via
`genericpath._splitext` with `sep='/'`, no `altsep`, `extsep='.'`), as
called by `_should_preserve_macros`: the extension starts at the last
dot of the final path component, provided some earlier character of that
component is not a dot (a leading-dots-only name has no extension). -/
def splitextExt (p : String) : String :=
  let cs := p.toList
  let sepIndex := rfindPos cs '/'
  let dotIndex := rfindPos cs '.'
  if dotIndex > sepIndex then
    let filenameIndex := sepIndex + 1
    if (List.range cs.length).any
        (fun i => decide (filenameIndex ≤ (i : Int) ∧ (i : Int) < dotIndex ∧
          cs.getD i ' ' ≠ '.')) then
      String.mk (cs.drop dotIndex.toNat)
    else ""
  else ""

/-! ## The macro-stripping converter (`DocumentPart.save` and helpers) -/

/-- Models `DocumentPart._should_preserve_macros`. -/
def should_preserve_macros (path_or_stream : Dest) (preserve_macros : Option Bool) :
    Bool :=
  match preserve_macros with
  | some b => b
  | none =>
    match path_or_stream with
    | .stream => false
    | .path s => strLower (splitextExt s) == ".docm"

/-- The `will_strip_macros` condition computed inside `save`. -/
def will_strip_macros (st : DocState) (path_or_stream : Dest)
    (preserve_macros : Option Bool) : Bool :=
  ctOf st == CT_WML_DOCUMENT_MACRO_ENABLED_MAIN &&
    !(should_preserve_macros path_or_stream preserve_macros)

/-- The `rids_to_remove` list of `_remove_macro_relationships`: rIds of
the document part's relationships whose reltype is a macro reltype. -/
def macroRIds (st : DocState) : List String :=
  ((relsOfName st st.docName).filter
    (fun r => macroReltypes.contains r.reltype)).map Rel.rId

/-- Models `DocumentPart._remove_macro_relationships`: collect the rIds of the
document part's relationships whose reltype is a macro reltype, remove
every referencing `w:control` element from the document markup, and
delete those relationships. -/
def remove_macro_relationships (st : DocState) : DocState :=
  let st1 := { st with docElement :=
    (macroRIds st).foldl (fun e rid => removeControls rid e) st.docElement }
  updatePart st1 st1.docName
    (fun p => { p with rels := p.rels.filter (fun r => !(macroRIds st).contains r.rId) })

/-- Drop every non-external relationship in `rels` whose target is the
part named `name`: the body of both deletion loops of
`_remove_vba_parts`. -/
def delRelsTargeting (name : String) (rels : List Rel) : List Rel :=
  rels.filter (fun r => !(!r.is_external && r.target == name))

/-! ### The package's part set

The source comment in `_remove_vba_parts` records that "the package
builds its parts list dynamically via `iter_parts()`": the part set is
the set of parts reachable from the package-level relationships by
following non-external relationships.  `partsNames` computes that set
as a fueled closure; the fuel exceeds the number of distinct candidate
names, so the result is a fixed point (proved below). -/

/-- Targets of the non-external relationships in `rels`. -/
def relTargetsNE (rels : List Rel) : List String :=
  (rels.filter (fun r => !r.is_external)).map Rel.target

/-- Parts directly targeted by the package-level relationships. -/
def initNames (st : DocState) : List String := (relTargetsNE st.pkgRels).dedup

/-- One expansion step of the reachable-part closure: add all
not-yet-visited targets of non-external relationships of visited
parts. -/
def closureStep (store : List Part) (cur : List String) : List String :=
  cur ++ (((cur.filterMap (lookupPart store)).map (fun p => relTargetsNE p.rels)).flatten.filter
    (fun t => !cur.contains t)).dedup

def closureIter (store : List Part) : Nat → List String → List String
  | 0, cur => cur
  | k + 1, cur => closureIter store k (closureStep store cur)

/-- All candidate part names: targets of package-level relationships and
of relationships of any stored part. -/
def targetPool (st : DocState) : List String :=
  relTargetsNE st.pkgRels ++ (st.store.map (fun p => relTargetsNE p.rels)).flatten

def closureFuel (st : DocState) : Nat :=
  ((initNames st ++ targetPool st).dedup).length + 1

/-- The package's part set (as partnames): `self.package.parts`, i.e.
the parts reachable from the package-level relationships
(`OpcPackage.iter_parts`). -/
def partsNames (st : DocState) : List String :=
  closureIter st.store (closureFuel st) (initNames st)

/-- The membership test of `_remove_vba_parts`: content type in
`vba_content_types`, or partname equal to one of
`vba_partname_patterns`. -/
def isMacroPart (p : Part) : Bool :=
  vbaContentTypes.contains p.content_type || vbaPartnamePatterns.contains p.partname

def isMacroName (st : DocState) (name : String) : Bool :=
  ((lookupPart st.store name).map isMacroPart).getD false

/-- Body of the inner loop of `_remove_vba_parts` for one part `q` of
the part set: skip `q` when it is the part being removed
(`if part == part_to_remove: continue`), otherwise delete every
non-external relationship of `q` targeting the removed part. -/
def dropRelsToIn (target : String) (s : DocState) (q : String) : DocState :=
  if q = target then s
  else updatePart s q (fun p => { p with rels := delRelsTargeting target p.rels })

/-- Body of the outer loop of `_remove_vba_parts` for one
`part_to_remove`: first delete every non-external package-level
relationship targeting it, then, for every part currently in the
package's (re-evaluated) part set other than the part itself, delete
every non-external relationship targeting it. -/
def removeOnePart (st : DocState) (target : String) : DocState :=
  let st := { st with pkgRels := delRelsTargeting target st.pkgRels }
  (partsNames st).foldl (dropRelsToIn target) st

/-- Models `DocumentPart._remove_vba_parts`: collect the macro-classified parts
of the current part set, then cascade-remove each. -/
def remove_vba_parts (st : DocState) : DocState :=
  let toRemove := (partsNames st).filter (isMacroName st)
  toRemove.foldl removeOnePart st

/-- The three mutation steps of the `will_strip_macros` branch of
`save`, in source order: content-type rewrite
(`self._content_type = CT.WML_DOCUMENT_MAIN`), then
`self._remove_macro_relationships()`, then `self._remove_vba_parts()`. -/
def strippedState (st : DocState) : DocState :=
  remove_vba_parts (remove_macro_relationships
    (updatePart st st.docName (fun p => { p with content_type := CT_WML_DOCUMENT_MAIN })))

/-- The `.docm` extension correction of `save`: a string path whose
lowercased form ends with `.docm` has that suffix replaced by `.docx`
(`path_or_stream[:-5] + '.docx'`); any other destination passes through
unchanged. -/
def correctedDest (path_or_stream : Dest) : Dest :=
  match path_or_stream with
  | .path s =>
    if strEndsWith (strLower s) ".docm" then Dest.path (pyDropRight s 5 ++ ".docx")
    else Dest.path s
  | .stream => Dest.stream

/-- Models `DocumentPart.save`: decide preservation, strip macros when the
document is macro-enabled and preservation is off (content-type rewrite,
relationship cascade, part sweep, `.docm` extension correction), then
hand the package and destination to the serializer
(`self.package.save(path_or_stream)`).  Returns the package state and
destination given to the serializer. -/
def save (st : DocState) (path_or_stream : Dest) (preserve_macros : Option Bool) :
    DocState × Dest :=
  if will_strip_macros st path_or_stream preserve_macros then
    (strippedState st, correctedDest path_or_stream)
  else
    (st, path_or_stream)

/-! ## Related-part accessors -/

/-- Relationship-type URIs for the well-known singleton and by-rId
accessors (fixed constants of `docx.opc.constants.RELATIONSHIP_TYPE`,
spec section 6). -/
def RT_SETTINGS : String :=
  "http://schemas.openxmlformats.org/officeDocument/2006/relationships/settings"

def RT_STYLES : String :=
  "http://schemas.openxmlformats.org/officeDocument/2006/relationships/styles"

def RT_NUMBERING : String :=
  "http://schemas.openxmlformats.org/officeDocument/2006/relationships/numbering"

def RT_COMMENTS : String :=
  "http://schemas.openxmlformats.org/officeDocument/2006/relationships/comments"

def RT_HEADER : String :=
  "http://schemas.openxmlformats.org/officeDocument/2006/relationships/header"

def CT_WML_SETTINGS : String :=
  "application/vnd.openxmlformats-officedocument.wordprocessingml.settings+xml"

def CT_WML_STYLES : String :=
  "application/vnd.openxmlformats-officedocument.wordprocessingml.styles+xml"

def CT_WML_NUMBERING : String :=
  "application/vnd.openxmlformats-officedocument.wordprocessingml.numbering+xml"

def CT_WML_COMMENTS : String :=
  "application/vnd.openxmlformats-officedocument.wordprocessingml.comments+xml"

/-- Modelled from the spec: `Part.part_related_by(reltype)` of the
`docx.opc` layer (absent from `src/`) — "search the calling part's
outgoing relationships for one whose reltype == T; if found return its
target part", otherwise the lookup-miss condition (`KeyError`), here the
`none` branch. -/
def part_related_by (st : DocState) (reltype : String) : Option String :=
  ((relsOfName st st.docName).find? (fun r => r.reltype == reltype)).map Rel.target

/-- Modelled from the spec: the fresh relationship id chosen by
`relate_to` (absent from `src/`) — the first unused id of the form
`rIdN`. -/
def nextRId (rels : List Rel) : String :=
  let used := rels.map Rel.rId
  ((((List.range (rels.length + 1)).map (fun i => "rId" ++ toString (i + 1))).find?
    (fun c => !used.contains c))).getD ("rId" ++ toString (rels.length + 1))

/-- Modelled from the spec: `Part.relate_to(part, reltype)` (absent from
`src/`) — "create a new relationship (self, fresh rId, T, new part,
is_external=false)". -/
def relate_to (st : DocState) (target : String) (reltype : String) : DocState :=
  updatePart st st.docName
    (fun p => { p with rels := p.rels ++ [⟨nextRId p.rels, reltype, target, false⟩] })

/-- Modelled from the spec: `XxxPart.default(package)` / `XxxPart.new()`
(absent from `src/`) — construct a default/empty part object of the
given kind; it joins the package's part set once related to. -/
def addDefaultPart (st : DocState) (name ct : String) : DocState :=
  { st with store := st.store ++ [⟨name, ct, []⟩] }

/-- The shared try/except-KeyError shape of `numbering_part`,
`_comments_part`, `_settings_part` and `_styles_part`: return the part
related by `reltype`, creating a default part (with the accessor's fixed
partname and content type) and relating to it on a lookup miss. -/
def lazySingleton (st : DocState) (reltype name ct : String) : String × DocState :=
  match part_related_by st reltype with
  | some p => (p, st)
  | none =>
    let st := addDefaultPart st name ct
    let st := relate_to st name reltype
    (name, st)

/-- Models `DocumentPart._settings_part`. -/
def settings_part (st : DocState) : String × DocState :=
  lazySingleton st RT_SETTINGS "/word/settings.xml" CT_WML_SETTINGS

/-- Models `DocumentPart._styles_part`. -/
def styles_part (st : DocState) : String × DocState :=
  lazySingleton st RT_STYLES "/word/styles.xml" CT_WML_STYLES

/-- Models `DocumentPart._comments_part`. -/
def comments_part (st : DocState) : String × DocState :=
  lazySingleton st RT_COMMENTS "/word/comments.xml" CT_WML_COMMENTS

/-- Models `DocumentPart.numbering_part`. -/
def numbering_part (st : DocState) : String × DocState :=
  lazySingleton st RT_NUMBERING "/word/numbering.xml" CT_WML_NUMBERING

/-- The lookup-miss condition of the by-rId accessors (`KeyError` from
`self.related_parts[rId]`). -/
inductive LookupErr where
  | keyError
deriving Repr, DecidableEq

/-- Modelled from the spec: `self.related_parts[rId]` (the
`docx.opc` relationship collection, absent from `src/`) — "resolve
directly by rId and fail with a NotFound condition if the id is absent —
no default is fabricated". -/
def related_parts_get (st : DocState) (rId : String) : Except LookupErr String :=
  match (relsOfName st st.docName).find? (fun r => r.rId == rId) with
  | some r => .ok r.target
  | none => .error .keyError

/-- Models `DocumentPart.header_part`: `return self.related_parts[rId]`.  The
state component records that the call mutates nothing. -/
def header_part (st : DocState) (rId : String) :
    Except LookupErr String × DocState :=
  (related_parts_get st rId, st)

/-- Models `DocumentPart.footer_part`: `return self.related_parts[rId]`. -/
def footer_part (st : DocState) (rId : String) :
    Except LookupErr String × DocState :=
  (related_parts_get st rId, st)

/-! ## Reachability theory for the part set

`Reaches st n` is the inductive characterization of membership in the
package's part set: `n` is the target of a chain of non-external
relationships starting at the package-level relationship collection.
The lemmas below show that the fueled closure `partsNames` computes
exactly this relation. -/

inductive Reaches (st : DocState) : String → Prop where
  | root {r : Rel} : r ∈ st.pkgRels → r.is_external = false → Reaches st r.target
  | step {m : String} {p : Part} {r : Rel} : Reaches st m →
      lookupPart st.store m = some p → r ∈ p.rels → r.is_external = false →
      Reaches st r.target

theorem mem_relTargetsNE {rels : List Rel} {x : String} :
    x ∈ relTargetsNE rels ↔ ∃ r ∈ rels, r.is_external = false ∧ r.target = x := by
  simp only [relTargetsNE, List.mem_map, List.mem_filter, Bool.not_eq_true',
    Bool.not_eq_eq_eq_not, Bool.not_true]
  constructor
  · rintro ⟨r, ⟨hr, hext⟩, ht⟩
    exact ⟨r, hr, hext, ht⟩
  · rintro ⟨r, hr, hext, ht⟩
    exact ⟨r, ⟨hr, hext⟩, ht⟩

theorem closureStep_grows (store : List Part) (cur : List String) :
    cur <+: closureStep store cur := by
  exact ⟨_, rfl⟩

theorem subset_closureStep (store : List Part) (cur : List String) :
    cur ⊆ closureStep store cur :=
  (closureStep_grows store cur).subset

theorem subset_closureIter (store : List Part) (k : Nat) (cur : List String) :
    cur ⊆ closureIter store k cur := by
  induction k generalizing cur with
  | zero => exact fun _ h => h
  | succ k ih =>
    intro x hx
    exact ih (closureStep store cur) (subset_closureStep store cur hx)

theorem nodup_closureStep {store : List Part} {cur : List String}
    (h : cur.Nodup) : (closureStep store cur).Nodup := by
  unfold closureStep
  apply List.Nodup.append h (List.nodup_dedup _)
  intro x hx hx'
  have h2 := (List.mem_filter.mp (List.mem_dedup.mp hx')).2
  have h3 : x ∉ cur := by simpa using h2
  exact h3 hx

theorem nodup_closureIter {store : List Part} (k : Nat) {cur : List String}
    (h : cur.Nodup) : (closureIter store k cur).Nodup := by
  induction k generalizing cur with
  | zero => exact h
  | succ k ih => exact ih (nodup_closureStep h)

theorem closureStep_eq_or_lt (store : List Part) (cur : List String) :
    closureStep store cur = cur ∨
      cur.length + 1 ≤ (closureStep store cur).length := by
  unfold closureStep
  cases hL : (((cur.filterMap (lookupPart store)).map
      (fun p => relTargetsNE p.rels)).flatten.filter (fun t => !cur.contains t)).dedup with
  | nil => left; simp [hL]
  | cons a l => right; simp [hL]

theorem closureIter_of_fixed {store : List Part} {cur : List String}
    (h : closureStep store cur = cur) (k : Nat) : closureIter store k cur = cur := by
  induction k with
  | zero => rfl
  | succ k ih =>
    show closureIter store k (closureStep store cur) = cur
    rw [h, ih]

/-- Elements of the closure either were already present or are targets of
relationships of stored parts. -/
theorem mem_closureStep_cases {store : List Part} {cur : List String} {x : String}
    (h : x ∈ closureStep store cur) :
    x ∈ cur ∨ x ∈ (store.map (fun p => relTargetsNE p.rels)).flatten := by
  unfold closureStep at h
  rcases List.mem_append.mp h with h | h
  · exact Or.inl h
  · right
    have h := List.mem_dedup.mp h
    have h := (List.mem_filter.mp h).1
    rcases List.mem_flatten.mp h with ⟨l, hl, hx⟩
    rcases List.mem_map.mp hl with ⟨p, hp, rfl⟩
    rcases List.mem_filterMap.mp hp with ⟨n, _, hn⟩
    have hps : p ∈ store := List.mem_of_find?_eq_some hn
    exact List.mem_flatten.mpr ⟨relTargetsNE p.rels, List.mem_map.mpr ⟨p, hps, rfl⟩, hx⟩

theorem mem_closureIter_cases {store : List Part} (k : Nat) {cur : List String}
    {x : String} (h : x ∈ closureIter store k cur) :
    x ∈ cur ∨ x ∈ (store.map (fun p => relTargetsNE p.rels)).flatten := by
  induction k generalizing cur with
  | zero => exact Or.inl h
  | succ k ih =>
    rcases ih h with h | h
    · exact mem_closureStep_cases h
    · exact Or.inr h

theorem closure_growth (store : List Part) : ∀ (k : Nat) (cur : List String),
    closureStep store (closureIter store k cur) = closureIter store k cur ∨
      cur.length + k ≤ (closureIter store k cur).length := by
  intro k
  induction k with
  | zero => intro cur; cases closureStep_eq_or_lt store cur with
    | inl h => exact Or.inl h
    | inr _ => right; simp [closureIter]
  | succ k ih =>
    intro cur
    cases closureStep_eq_or_lt store cur with
    | inl h =>
      left
      have e : closureIter store (k + 1) cur = cur := by
        show closureIter store k (closureStep store cur) = cur
        rw [h, closureIter_of_fixed h]
      rw [e, h]
    | inr h =>
      cases ih (closureStep store cur) with
      | inl h' => exact Or.inl h'
      | inr h' =>
        right
        show cur.length + (k + 1) ≤ (closureIter store k (closureStep store cur)).length
        omega

/-- A nodup list of elements of `P` is no longer than `P.dedup`. -/
theorem length_le_dedup_of_nodup {l P : List String} (hn : l.Nodup)
    (hsub : ∀ x ∈ l, x ∈ P) : l.length ≤ P.dedup.length := by
  have hsub' : l ⊆ P.dedup := fun x hx => List.mem_dedup.mpr (hsub x hx)
  exact (hn.subperm hsub').length_le

/-- The fueled closure `partsNames` is a fixed point of `closureStep`. -/
theorem partsNames_fixed (st : DocState) :
    closureStep st.store (partsNames st) = partsNames st := by
  unfold partsNames
  cases closure_growth st.store (closureFuel st) (initNames st) with
  | inl h => exact h
  | inr h =>
    exfalso
    have hn : (closureIter st.store (closureFuel st) (initNames st)).Nodup :=
      nodup_closureIter _ (List.nodup_dedup _)
    have hbound : (closureIter st.store (closureFuel st) (initNames st)).length ≤
        ((initNames st ++ targetPool st).dedup).length := by
      apply length_le_dedup_of_nodup hn
      intro x hx
      rcases mem_closureIter_cases _ hx with h' | h'
      · exact List.mem_append.mpr (Or.inl h')
      · refine List.mem_append.mpr (Or.inr ?_)
        unfold targetPool
        exact List.mem_append.mpr (Or.inr h')
    have e : closureFuel st = ((initNames st ++ targetPool st).dedup).length + 1 := rfl
    omega

/-- Closedness: the part set contains the targets of all non-external
relationships of its members. -/
theorem target_mem_of_fixed {store : List Part} {cur : List String}
    (hfix : closureStep store cur = cur) {n : String} (hn : n ∈ cur) {p : Part}
    (hp : lookupPart store n = some p) {r : Rel} (hr : r ∈ p.rels)
    (hext : r.is_external = false) : r.target ∈ cur := by
  by_contra hmem
  have hflat : r.target ∈ ((cur.filterMap (lookupPart store)).map
      (fun p => relTargetsNE p.rels)).flatten := by
    apply List.mem_flatten.mpr
    refine ⟨relTargetsNE p.rels, ?_, ?_⟩
    · exact List.mem_map.mpr ⟨p, List.mem_filterMap.mpr ⟨n, hn, hp⟩, rfl⟩
    · exact mem_relTargetsNE.mpr ⟨r, hr, hext, rfl⟩
  have hfil : r.target ∈ (((cur.filterMap (lookupPart store)).map
      (fun p => relTargetsNE p.rels)).flatten.filter (fun t => !cur.contains t)).dedup := by
    apply List.mem_dedup.mpr
    apply List.mem_filter.mpr
    refine ⟨hflat, ?_⟩
    simpa using hmem
  have hlen := congrArg List.length hfix
  unfold closureStep at hlen
  rw [List.length_append] at hlen
  have : (((cur.filterMap (lookupPart store)).map
      (fun p => relTargetsNE p.rels)).flatten.filter (fun t => !cur.contains t)).dedup = [] := by
    apply List.length_eq_zero.mp
    omega
  rw [this] at hfil
  exact List.not_mem_nil _ hfil

theorem target_mem_partsNames {st : DocState} {n : String}
    (hn : n ∈ partsNames st) {p : Part} (hp : lookupPart st.store n = some p)
    {r : Rel} (hr : r ∈ p.rels) (hext : r.is_external = false) :
    r.target ∈ partsNames st :=
  target_mem_of_fixed (partsNames_fixed st) hn hp hr hext

theorem initNames_subset_partsNames (st : DocState) :
    initNames st ⊆ partsNames st :=
  subset_closureIter st.store (closureFuel st) (initNames st)

/-- Soundness: everything the closure collects is genuinely reachable. -/
theorem reaches_of_mem_closureIter {st : DocState} (k : Nat) {cur : List String}
    (hcur : ∀ x ∈ cur, Reaches st x) :
    ∀ x ∈ closureIter st.store k cur, Reaches st x := by
  induction k generalizing cur with
  | zero => exact hcur
  | succ k ih =>
    apply ih
    intro x hx
    unfold closureStep at hx
    rcases List.mem_append.mp hx with hx | hx
    · exact hcur x hx
    · have hx := (List.mem_filter.mp (List.mem_dedup.mp hx)).1
      rcases List.mem_flatten.mp hx with ⟨l, hl, hxl⟩
      rcases List.mem_map.mp hl with ⟨p, hp, rfl⟩
      rcases List.mem_filterMap.mp hp with ⟨m, hm, hlk⟩
      rcases mem_relTargetsNE.mp hxl with ⟨r, hr, hext, rfl⟩
      exact Reaches.step (hcur m hm) hlk hr hext

theorem reaches_of_mem_partsNames {st : DocState} {x : String}
    (h : x ∈ partsNames st) : Reaches st x := by
  refine reaches_of_mem_closureIter (closureFuel st) ?_ x h
  intro y hy
  rcases mem_relTargetsNE.mp (List.mem_dedup.mp hy) with ⟨r, hr, hext, rfl⟩
  exact Reaches.root hr hext

/-- Completeness: everything reachable is in the part set. -/
theorem mem_partsNames_of_reaches {st : DocState} {x : String}
    (h : Reaches st x) : x ∈ partsNames st := by
  induction h with
  | root hr hext =>
    apply initNames_subset_partsNames
    exact List.mem_dedup.mpr (mem_relTargetsNE.mpr ⟨_, hr, hext, rfl⟩)
  | step hm hlk hr hext ih =>
    exact target_mem_partsNames ih hlk hr hext

theorem mem_partsNames_iff {st : DocState} {x : String} :
    x ∈ partsNames st ↔ Reaches st x :=
  ⟨reaches_of_mem_partsNames, mem_partsNames_of_reaches⟩

/-! ## Monotonicity under graph edits -/

theorem lookupPart_partname {store : List Part} {n : String} {p : Part}
    (h : lookupPart store n = some p) : p.partname = n := by
  have h' := List.find?_some h
  simpa using h'

/-- Relation `PkgLE s t`: every part object and package-level relationship of
`s` appears in `t`, with the same partname and content type and at
least the same relationships.  Removal steps relate the output to the
input; part/relationship additions relate the input to the output. -/
def PkgLE (s t : DocState) : Prop :=
  s.pkgRels.Sublist t.pkgRels ∧
  ∀ n p, lookupPart s.store n = some p →
    ∃ q, lookupPart t.store n = some q ∧ p.content_type = q.content_type ∧
      p.rels.Sublist q.rels

theorem PkgLE.refl (s : DocState) : PkgLE s s :=
  ⟨List.Sublist.refl _, fun _ p h => ⟨p, h, rfl, List.Sublist.refl _⟩⟩

theorem PkgLE.trans {a b c : DocState} (h1 : PkgLE a b) (h2 : PkgLE b c) :
    PkgLE a c := by
  refine ⟨h1.1.trans h2.1, ?_⟩
  intro n p hp
  obtain ⟨q, hq, hct, hrl⟩ := h1.2 n p hp
  obtain ⟨w, hw, hct', hrl'⟩ := h2.2 n q hq
  exact ⟨w, hw, hct.trans hct', hrl.trans hrl'⟩

theorem Reaches.mono {s t : DocState} (hle : PkgLE s t) {x : String}
    (h : Reaches s x) : Reaches t x := by
  induction h with
  | root hr hext => exact Reaches.root (hle.1.subset hr) hext
  | step _ hlk hr hext ih =>
    obtain ⟨q, hq, _, hrl⟩ := hle.2 _ _ hlk
    exact Reaches.step ih hq (hrl.subset hr) hext

/-- Lookups in a store rewritten by `updatePart`. -/
theorem lookupPart_map_ite {name : String} {f : Part → Part}
    (hf : ∀ p, (f p).partname = p.partname) (store : List Part) (n : String) :
    lookupPart (store.map (fun p => if p.partname = name then f p else p)) n =
      if n = name then (lookupPart store n).map f else lookupPart store n := by
  induction store with
  | nil => unfold lookupPart; by_cases h : n = name <;> simp [h]
  | cons p store ih =>
    have hgp : (if p.partname = name then f p else p).partname = p.partname := by
      split
      · exact hf p
      · rfl
    by_cases hpn : p.partname = n
    · have hc1 : ((if p.partname = name then f p else p).partname == n) = true := by
        rw [hgp]
        exact beq_iff_eq.mpr hpn
      have hc2 : (p.partname == n) = true := beq_iff_eq.mpr hpn
      unfold lookupPart
      rw [List.map_cons]
      simp only [List.find?_cons, hc1, hc2]
      by_cases hnn : n = name
      · have hpname : p.partname = name := hpn.trans hnn
        rw [if_pos hnn, if_pos hpname, Option.map_some']
      · have hpname : ¬ p.partname = name := fun e => hnn (hpn.symm.trans e)
        rw [if_neg hnn, if_neg hpname]
    · have hc1 : ((if p.partname = name then f p else p).partname == n) = false := by
        rw [hgp]
        exact beq_eq_false_iff_ne.mpr hpn
      have hc2 : (p.partname == n) = false := beq_eq_false_iff_ne.mpr hpn
      unfold lookupPart
      rw [List.map_cons]
      simp only [List.find?_cons, hc1, hc2]
      exact ih

theorem lookupPart_updatePart {st : DocState} {name : String} {f : Part → Part}
    (hf : ∀ p, (f p).partname = p.partname) (n : String) :
    lookupPart (updatePart st name f).store n =
      if n = name then (lookupPart st.store n).map f else lookupPart st.store n :=
  lookupPart_map_ite hf st.store n

theorem pkgLE_updatePart_shrink {st : DocState} {name : String} {f : Part → Part}
    (hf : ∀ p, (f p).partname = p.partname)
    (hct : ∀ p, (f p).content_type = p.content_type)
    (hrl : ∀ p, (f p).rels.Sublist p.rels) :
    PkgLE (updatePart st name f) st := by
  refine ⟨List.Sublist.refl _, ?_⟩
  intro n p hp
  rw [lookupPart_updatePart hf] at hp
  by_cases hnn : n = name
  · rw [if_pos hnn] at hp
    obtain ⟨q, hq, rfl⟩ := Option.map_eq_some'.mp hp
    exact ⟨q, hq, hct q, hrl q⟩
  · rw [if_neg hnn] at hp
    exact ⟨p, hp, rfl, List.Sublist.refl _⟩

theorem pkgLE_updatePart_grow {st : DocState} {name : String} {f : Part → Part}
    (hf : ∀ p, (f p).partname = p.partname)
    (hct : ∀ p, (f p).content_type = p.content_type)
    (hrl : ∀ p : Part, p.rels.Sublist (f p).rels) :
    PkgLE st (updatePart st name f) := by
  refine ⟨List.Sublist.refl _, ?_⟩
  intro n p hp
  rw [lookupPart_updatePart hf]
  by_cases hnn : n = name
  · rw [if_pos hnn]
    refine ⟨f p, ?_, (hct p).symm, hrl p⟩
    rw [hp, Option.map_some']
  · rw [if_neg hnn]
    exact ⟨p, hp, rfl, List.Sublist.refl _⟩

theorem pkgLE_setPkgRels {st : DocState} {rels : List Rel}
    (h : rels.Sublist st.pkgRels) : PkgLE { st with pkgRels := rels } st :=
  ⟨h, fun _ p hp => ⟨p, hp, rfl, List.Sublist.refl _⟩⟩

theorem pkgLE_of_graph_eq {s t : DocState} (h1 : s.pkgRels = t.pkgRels)
    (h2 : s.store = t.store) : PkgLE s t :=
  ⟨h1 ▸ List.Sublist.refl _, fun _ p hp => ⟨p, h2 ▸ hp, rfl, List.Sublist.refl _⟩⟩

theorem pkgLE_foldl {α : Type} {g : DocState → α → DocState}
    (hg : ∀ s x, PkgLE (g s x) s) (l : List α) (s : DocState) :
    PkgLE (l.foldl g s) s := by
  induction l generalizing s with
  | nil => exact PkgLE.refl s
  | cons x rest ih => exact (ih (g s x)).trans (hg s x)

theorem delRelsTargeting_sublist (name : String) (rels : List Rel) :
    (delRelsTargeting name rels).Sublist rels :=
  List.filter_sublist rels

theorem dropRelsToIn_pkgLE (target : String) (s : DocState) (q : String) :
    PkgLE (dropRelsToIn target s q) s := by
  unfold dropRelsToIn
  split
  · exact PkgLE.refl s
  · exact pkgLE_updatePart_shrink (fun _ => rfl) (fun _ => rfl)
      (fun p => delRelsTargeting_sublist target p.rels)

theorem removeOnePart_pkgLE (st : DocState) (target : String) :
    PkgLE (removeOnePart st target) st :=
  (pkgLE_foldl (dropRelsToIn_pkgLE target) _ _).trans
    (pkgLE_setPkgRels (delRelsTargeting_sublist target st.pkgRels))

theorem remove_vba_parts_pkgLE (st : DocState) :
    PkgLE (remove_vba_parts st) st :=
  pkgLE_foldl removeOnePart_pkgLE _ st

theorem remove_macro_relationships_pkgLE (st : DocState) :
    PkgLE (remove_macro_relationships st) st :=
  PkgLE.trans (pkgLE_updatePart_shrink (fun _ => rfl) (fun _ => rfl)
    (fun p => List.filter_sublist p.rels)) (pkgLE_of_graph_eq rfl rfl)

/-! ## The sweep removes every reference to a removed part -/

/-- No non-external relationship in `rels` targets `name`. -/
def NoRelTo (rels : List Rel) (name : String) : Prop :=
  ∀ r ∈ rels, r.is_external = false → r.target ≠ name

theorem NoRelTo.sublist {rels' rels : List Rel} {name : String}
    (h : rels'.Sublist rels) (hn : NoRelTo rels name) : NoRelTo rels' name :=
  fun r hr => hn r (h.subset hr)

theorem noRelTo_delRelsTargeting (name : String) (rels : List Rel) :
    NoRelTo (delRelsTargeting name rels) name := by
  intro r hr hext hta
  have h := (List.mem_filter.mp hr).2
  rw [hext, hta] at h
  simp at h

/-- After the sweep step for `name`: no package-level relationship and
no relationship of any other part still in the part set targets
`name`. -/
def RemovedEverywhere (st : DocState) (name : String) : Prop :=
  NoRelTo st.pkgRels name ∧
  ∀ q p, Reaches st q → q ≠ name → lookupPart st.store q = some p →
    NoRelTo p.rels name

theorem RemovedEverywhere.preserved {s t : DocState} {name : String}
    (hle : PkgLE s t) (h : RemovedEverywhere t name) :
    RemovedEverywhere s name := by
  constructor
  · exact h.1.sublist hle.1
  · intro q p hq hqn hlk
    obtain ⟨p', hp', _, hrl⟩ := hle.2 q p hlk
    exact (h.2 q p' (hq.mono hle) hqn hp').sublist hrl

theorem foldl_dropRelsToIn_pkgRels (target : String) (names : List String)
    (s : DocState) :
    (names.foldl (dropRelsToIn target) s).pkgRels = s.pkgRels := by
  induction names generalizing s with
  | nil => rfl
  | cons x rest ih =>
    rw [List.foldl_cons, ih]
    unfold dropRelsToIn
    split
    · rfl
    · rfl

theorem innerFold_noRelTo {target : String} (names : List String) (s : DocState)
    {q : String} (hq : q ∈ names) (hqt : q ≠ target) {p : Part}
    (hlk : lookupPart (names.foldl (dropRelsToIn target) s).store q = some p) :
    NoRelTo p.rels target := by
  induction names generalizing s with
  | nil => cases hq
  | cons x rest ih =>
    rw [List.foldl_cons] at hlk
    rcases List.mem_cons.mp hq with rfl | hq'
    · have hle : PkgLE (rest.foldl (dropRelsToIn target) (dropRelsToIn target s q))
          (dropRelsToIn target s q) :=
        pkgLE_foldl (dropRelsToIn_pkgLE target) rest _
      obtain ⟨p', hp', _, hrl⟩ := hle.2 q p hlk
      rw [dropRelsToIn, if_neg hqt,
        lookupPart_updatePart
          (f := fun p : Part => { p with rels := delRelsTargeting target p.rels })
          (fun _ => rfl), if_pos rfl] at hp'
      obtain ⟨p0, _, rfl⟩ := Option.map_eq_some'.mp hp'
      exact NoRelTo.sublist hrl (noRelTo_delRelsTargeting target p0.rels)
    · exact ih (dropRelsToIn target s x) hq' hlk

theorem removeOnePart_eq (st : DocState) (target : String) :
    removeOnePart st target =
      (partsNames { st with pkgRels := delRelsTargeting target st.pkgRels }).foldl
        (dropRelsToIn target)
        { st with pkgRels := delRelsTargeting target st.pkgRels } :=
  rfl

theorem removeOnePart_removes (st : DocState) (target : String) :
    RemovedEverywhere (removeOnePart st target) target := by
  rw [removeOnePart_eq]
  constructor
  · rw [foldl_dropRelsToIn_pkgRels]
    exact noRelTo_delRelsTargeting target st.pkgRels
  · intro q p hq hqn hlk
    have hle : PkgLE
        ((partsNames { st with pkgRels := delRelsTargeting target st.pkgRels }).foldl
          (dropRelsToIn target)
          { st with pkgRels := delRelsTargeting target st.pkgRels })
        { st with pkgRels := delRelsTargeting target st.pkgRels } :=
      pkgLE_foldl (dropRelsToIn_pkgLE target) _ _
    have hmem : q ∈ partsNames { st with pkgRels := delRelsTargeting target st.pkgRels } :=
      mem_partsNames_of_reaches (hq.mono hle)
    exact innerFold_noRelTo _ _ hmem hqn hlk

theorem foldl_removedEverywhere {l : List String} {s : DocState} {target : String}
    (h : target ∈ l) : RemovedEverywhere (l.foldl removeOnePart s) target := by
  induction l generalizing s with
  | nil => cases h
  | cons x rest ih =>
    rw [List.foldl_cons]
    rcases List.mem_cons.mp h with rfl | h'
    · exact (removeOnePart_removes s target).preserved
        (pkgLE_foldl removeOnePart_pkgLE rest _)
    · exact ih h'

theorem remove_vba_parts_removes {st : DocState} {target : String}
    (h : target ∈ (partsNames st).filter (isMacroName st)) :
    RemovedEverywhere (remove_vba_parts st) target :=
  foldl_removedEverywhere h

theorem isMacroName_of_pkgLE {s t : DocState} (hle : PkgLE s t) {n : String}
    (h : isMacroName s n = true) : isMacroName t n = true := by
  unfold isMacroName at h ⊢
  cases hlk : lookupPart s.store n with
  | none => rw [hlk] at h; simp at h
  | some p =>
    rw [hlk] at h
    simp only [Option.map_some', Option.getD_some] at h
    obtain ⟨q, hq, hct, _⟩ := hle.2 n p hlk
    rw [hq]
    simp only [Option.map_some', Option.getD_some]
    unfold isMacroPart at h ⊢
    rw [← hct, lookupPart_partname hq, ← lookupPart_partname hlk]
    exact h

/-- Core of the sweep's correctness: no part reachable after
`_remove_vba_parts` is macro-classified. -/
theorem no_macro_reachable_after_sweep {s0 : DocState} {n : String}
    (h : Reaches (remove_vba_parts s0) n) :
    isMacroName (remove_vba_parts s0) n = false := by
  induction h with
  | @root r hr hext =>
    by_contra hmac
    rw [Bool.not_eq_false] at hmac
    have hle : PkgLE (remove_vba_parts s0) s0 := remove_vba_parts_pkgLE s0
    have hreach1 : Reaches (remove_vba_parts s0) r.target := Reaches.root hr hext
    have hmem : r.target ∈ (partsNames s0).filter (isMacroName s0) :=
      List.mem_filter.mpr ⟨mem_partsNames_of_reaches (hreach1.mono hle),
        isMacroName_of_pkgLE hle hmac⟩
    exact (remove_vba_parts_removes hmem).1 r hr hext rfl
  | @step m p r hm hlk hr hext ih =>
    by_contra hmac
    rw [Bool.not_eq_false] at hmac
    have hle : PkgLE (remove_vba_parts s0) s0 := remove_vba_parts_pkgLE s0
    have hreach1 : Reaches (remove_vba_parts s0) r.target :=
      Reaches.step hm hlk hr hext
    have hmem : r.target ∈ (partsNames s0).filter (isMacroName s0) :=
      List.mem_filter.mpr ⟨mem_partsNames_of_reaches (hreach1.mono hle),
        isMacroName_of_pkgLE hle hmac⟩
    have hmn : m ≠ r.target := by
      intro e
      rw [← e] at hmac
      rw [ih] at hmac
      exact Bool.false_ne_true hmac
    exact (remove_vba_parts_removes hmem).2 m p hm hmn hlk r hr hext rfl

/-! ## Content type and document name through the pipeline -/

/-- The content type recorded for partname `n` (the converter never
changes it except for the document part's rewrite in `save`). -/
def ctAt (st : DocState) (n : String) : Option String :=
  (lookupPart st.store n).map Part.content_type

theorem ctAt_updatePart {st : DocState} {name : String} {f : Part → Part}
    (hf : ∀ p, (f p).partname = p.partname)
    (hct : ∀ p, (f p).content_type = p.content_type) (n : String) :
    ctAt (updatePart st name f) n = ctAt st n := by
  unfold ctAt
  rw [lookupPart_updatePart hf]
  by_cases hnn : n = name
  · rw [if_pos hnn]
    cases lookupPart st.store n with
    | none => rfl
    | some p => simp [hct p]
  · rw [if_neg hnn]

theorem ctAt_dropRelsToIn (target : String) (s : DocState) (q n : String) :
    ctAt (dropRelsToIn target s q) n = ctAt s n := by
  unfold dropRelsToIn
  split
  · rfl
  · apply ctAt_updatePart
    · intro p
      rfl
    · intro p
      rfl

theorem ctAt_foldl {α : Type} {g : DocState → α → DocState}
    (hg : ∀ s x n, ctAt (g s x) n = ctAt s n) (l : List α) (s : DocState)
    (n : String) : ctAt (l.foldl g s) n = ctAt s n := by
  induction l generalizing s with
  | nil => rfl
  | cons x rest ih => rw [List.foldl_cons, ih, hg]

theorem ctAt_removeOnePart (st : DocState) (target n : String) :
    ctAt (removeOnePart st target) n = ctAt st n := by
  rw [removeOnePart_eq, ctAt_foldl (fun s q n => ctAt_dropRelsToIn target s q n)]
  rfl

theorem ctAt_remove_vba_parts (st : DocState) (n : String) :
    ctAt (remove_vba_parts st) n = ctAt st n :=
  ctAt_foldl (fun s t n => ctAt_removeOnePart s t n) _ st n

theorem ctAt_remove_macro_relationships (st : DocState) (n : String) :
    ctAt (remove_macro_relationships st) n = ctAt st n := by
  apply ctAt_updatePart
  · intro p
    rfl
  · intro p
    rfl

theorem updatePart_docName (st : DocState) (name : String) (f : Part → Part) :
    (updatePart st name f).docName = st.docName := rfl

theorem dropRelsToIn_docName (target : String) (s : DocState) (q : String) :
    (dropRelsToIn target s q).docName = s.docName := by
  unfold dropRelsToIn
  split
  · rfl
  · rfl

theorem foldl_docName {α : Type} {g : DocState → α → DocState}
    (hg : ∀ s x, (g s x).docName = s.docName) (l : List α) (s : DocState) :
    (l.foldl g s).docName = s.docName := by
  induction l generalizing s with
  | nil => rfl
  | cons x rest ih => rw [List.foldl_cons, ih, hg]

theorem removeOnePart_docName (st : DocState) (target : String) :
    (removeOnePart st target).docName = st.docName := by
  rw [removeOnePart_eq, foldl_docName (dropRelsToIn_docName target)]

theorem remove_vba_parts_docName (st : DocState) :
    (remove_vba_parts st).docName = st.docName :=
  foldl_docName removeOnePart_docName _ st

theorem remove_macro_relationships_docName (st : DocState) :
    (remove_macro_relationships st).docName = st.docName := rfl

theorem strippedState_docName (st : DocState) :
    (strippedState st).docName = st.docName := by
  unfold strippedState
  rw [remove_vba_parts_docName, remove_macro_relationships_docName,
    updatePart_docName]

/-- The content-type rewrite step: afterwards the document part's
content type reads `CT_WML_DOCUMENT_MAIN` (when the part exists). -/
theorem ctAt_setCT {st : DocState}
    (h : (lookupPart st.store st.docName).isSome) :
    ctAt (updatePart st st.docName
      (fun p => { p with content_type := CT_WML_DOCUMENT_MAIN })) st.docName =
      some CT_WML_DOCUMENT_MAIN := by
  unfold ctAt
  rw [lookupPart_updatePart
    (f := fun p : Part => { p with content_type := CT_WML_DOCUMENT_MAIN })
    (fun _ => rfl), if_pos rfl]
  cases hl : lookupPart st.store st.docName with
  | none => rw [hl] at h; simp at h
  | some p => simp

theorem lookup_isSome_of_ctOf_macro {st : DocState}
    (h : ctOf st = CT_WML_DOCUMENT_MACRO_ENABLED_MAIN) :
    (lookupPart st.store st.docName).isSome := by
  unfold ctOf at h
  cases hl : lookupPart st.store st.docName with
  | none =>
    rw [hl] at h
    simp only [Option.map_none', Option.getD_none] at h
    exact absurd h (by decide)
  | some p => simp

/-- After the stripping pipeline the document's content type is the
macro-free main-document type. -/
theorem ctOf_strippedState {st : DocState}
    (h : ctOf st = CT_WML_DOCUMENT_MACRO_ENABLED_MAIN) :
    ctOf (strippedState st) = CT_WML_DOCUMENT_MAIN := by
  have hsome := lookup_isSome_of_ctOf_macro h
  have hdn := strippedState_docName st
  unfold ctOf
  rw [hdn]
  have : ctAt (strippedState st) st.docName = some CT_WML_DOCUMENT_MAIN := by
    unfold strippedState
    rw [ctAt_remove_vba_parts, ctAt_remove_macro_relationships]
    exact ctAt_setCT hsome
  unfold ctAt at this
  rw [this]
  rfl

theorem save_of_strip {st : DocState} {d : Dest} {f : Option Bool}
    (h : will_strip_macros st d f = true) :
    save st d f = (strippedState st, correctedDest d) := by
  unfold save
  rw [if_pos h]

theorem save_of_no_strip {st : DocState} {d : Dest} {f : Option Bool}
    (h : will_strip_macros st d f = false) :
    save st d f = (st, d) := by
  unfold save
  rw [h]
  simp

theorem will_strip_of (st : DocState) (d : Dest) (f : Option Bool)
    (hct : ctOf st = CT_WML_DOCUMENT_MACRO_ENABLED_MAIN)
    (hp : should_preserve_macros d f = false) :
    will_strip_macros st d f = true := by
  unfold will_strip_macros
  rw [hp, hct]
  simp

theorem will_strip_strippedState (st : DocState) (d : Dest) (f : Option Bool)
    (hct : ctOf st = CT_WML_DOCUMENT_MACRO_ENABLED_MAIN) :
    will_strip_macros (strippedState st) d f = false := by
  unfold will_strip_macros
  rw [ctOf_strippedState hct]
  simp only [Bool.and_eq_false_imp]
  intro h
  exact absurd h (by decide)

/-! ## The relationship cascade clears the document part's macro
relationship types -/

theorem mem_relsOfName_of_pkgLE {s t : DocState} (hle : PkgLE s t) {n : String}
    {r : Rel} (hr : r ∈ relsOfName s n) : r ∈ relsOfName t n := by
  unfold relsOfName at hr ⊢
  cases hl : lookupPart s.store n with
  | none =>
    rw [hl] at hr
    simp at hr
  | some p =>
    rw [hl] at hr
    simp only [Option.map_some', Option.getD_some] at hr
    obtain ⟨q, hq, _, hrl⟩ := hle.2 n p hl
    rw [hq]
    simp only [Option.map_some', Option.getD_some]
    exact hrl.subset hr

theorem remove_macro_relationships_eq (st : DocState) :
    remove_macro_relationships st =
      updatePart
        { st with docElement :=
          (macroRIds st).foldl (fun e rid => removeControls rid e) st.docElement }
        st.docName
        (fun p =>
          { p with rels := p.rels.filter (fun r => !(macroRIds st).contains r.rId) }) :=
  rfl

theorem relsOfName_remove_macro_relationships (st : DocState) :
    ∀ r ∈ relsOfName (remove_macro_relationships st) st.docName,
      macroReltypes.contains r.reltype = false := by
  intro r hr
  unfold relsOfName at hr
  rw [remove_macro_relationships_eq, lookupPart_updatePart
      (f := fun p : Part =>
        { p with rels := p.rels.filter (fun r => !(macroRIds st).contains r.rId) })
      (fun _ => rfl), if_pos rfl] at hr
  dsimp only at hr
  cases hl : lookupPart st.store st.docName with
  | none =>
    rw [hl] at hr
    simp at hr
  | some p =>
    rw [hl] at hr
    simp only [Option.map_some', Option.getD_some] at hr
    have hmem := List.mem_filter.mp hr
    by_contra hmac
    rw [Bool.not_eq_false] at hmac
    have hin : r.rId ∈ macroRIds st := by
      apply List.mem_map.mpr
      refine ⟨r, List.mem_filter.mpr ⟨?_, hmac⟩, rfl⟩
      unfold relsOfName
      rw [hl]
      exact hmem.1
    have hno := hmem.2
    simp only [Bool.not_eq_true'] at hno
    have hnotin : r.rId ∉ macroRIds st := by
      simpa using hno
    exact hnotin hin

theorem doc_rels_no_macro_strippedState (st : DocState) :
    ∀ r ∈ relsOfName (strippedState st) st.docName,
      macroReltypes.contains r.reltype = false := by
  intro r hr
  have hle := remove_vba_parts_pkgLE (remove_macro_relationships
    (updatePart st st.docName (fun p => { p with content_type := CT_WML_DOCUMENT_MAIN })))
  exact relsOfName_remove_macro_relationships
    (updatePart st st.docName (fun p => { p with content_type := CT_WML_DOCUMENT_MAIN }))
    r (mem_relsOfName_of_pkgLE hle hr)

/-! ## Concrete packages used as test inputs -/

def RT_OFFICE_DOCUMENT : String :=
  "http://schemas.openxmlformats.org/officeDocument/2006/relationships/officeDocument"

def RT_VBA_PROJECT : String :=
  "http://schemas.microsoft.com/office/2006/relationships/vbaProject"

def CT_WML_HEADER : String :=
  "application/vnd.openxmlformats-officedocument.wordprocessingml.header+xml"

def CT_VBA_PROJECT : String := "application/vnd.ms-word.vbaProject"

/-- The Scenario A package: a macro-enabled main document holding one
VBA-project relationship `rId7` to a `vbaProject` part, and one inline
`w:control` element referencing `rId7`. -/
def stA : DocState :=
  ⟨[⟨"rId1", RT_OFFICE_DOCUMENT, "/word/document.xml", false⟩],
   [⟨"/word/document.xml", CT_WML_DOCUMENT_MACRO_ENABLED_MAIN,
      [⟨"rId7", RT_VBA_PROJECT, "/word/vbaProject.bin", false⟩]⟩,
    ⟨"/word/vbaProject.bin", CT_VBA_PROJECT, []⟩],
   "/word/document.xml",
   .node 0 "w:document" []
     (.cons (.node 1 "w:body" []
       (.cons (.node 2 "w:control" [("r:id", "rId7")] .nil) .nil)) .nil)⟩

/-- A macro-enabled package whose header part carries a relationship of
the VBA-project *reltype* whose target is a plain styles part (neither a
macro content type nor a macro partname). -/
def stB : DocState :=
  ⟨[⟨"rId1", RT_OFFICE_DOCUMENT, "/word/document.xml", false⟩],
   [⟨"/word/document.xml", CT_WML_DOCUMENT_MACRO_ENABLED_MAIN,
      [⟨"rId2", RT_HEADER, "/word/header1.xml", false⟩]⟩,
    ⟨"/word/header1.xml", CT_WML_HEADER,
      [⟨"rId3", RT_VBA_PROJECT, "/word/styles.xml", false⟩]⟩,
    ⟨"/word/styles.xml", CT_WML_STYLES, []⟩],
   "/word/document.xml",
   .node 0 "w:document" [] (.cons (.node 1 "w:body" [] .nil) .nil)⟩

/-- A package whose document is already the macro-free main-document
type. -/
def stC : DocState :=
  ⟨[⟨"rId1", RT_OFFICE_DOCUMENT, "/word/document.xml", false⟩],
   [⟨"/word/document.xml", CT_WML_DOCUMENT_MAIN, []⟩],
   "/word/document.xml",
   .node 0 "w:document" [] (.cons (.node 1 "w:body" [] .nil) .nil)⟩

/-- A macro-free package whose document part relates to a styles part
under `rIdS` (a relationship whose reltype is styles, not header or
footer). -/
def stD : DocState :=
  ⟨[⟨"rId1", RT_OFFICE_DOCUMENT, "/word/document.xml", false⟩],
   [⟨"/word/document.xml", CT_WML_DOCUMENT_MAIN,
      [⟨"rIdS", RT_STYLES, "/word/styles.xml", false⟩]⟩,
    ⟨"/word/styles.xml", CT_WML_STYLES, []⟩],
   "/word/document.xml",
   .node 0 "w:document" [] (.cons (.node 1 "w:body" [] .nil) .nil)⟩

/-! ## Claim theorems -/

/-- Claim C1: after a macro-strip conversion (save on a macro-enabled
document with the preserve decision resolved to false), every
non-external relationship remaining in the package — package-root-level
or outgoing from any part of the part set — has a target part present in
the package's part set. -/
theorem c1_integrity_after_strip (st : DocState) (d : Dest) (f : Option Bool)
    (hct : ctOf st = CT_WML_DOCUMENT_MACRO_ENABLED_MAIN)
    (hp : should_preserve_macros d f = false) :
    (∀ r ∈ ((save st d f).1).pkgRels, r.is_external = false →
      r.target ∈ partsNames (save st d f).1) ∧
    (∀ n ∈ partsNames (save st d f).1, ∀ p,
      lookupPart ((save st d f).1).store n = some p →
      ∀ r ∈ p.rels, r.is_external = false →
        r.target ∈ partsNames (save st d f).1) := by
  constructor
  · intro r hr hext
    exact mem_partsNames_of_reaches (Reaches.root hr hext)
  · intro n hn p hpl r hr hext
    exact target_mem_partsNames hn hpl hr hext

theorem c1_integrity_after_strip_witness :
    ctOf stA = CT_WML_DOCUMENT_MACRO_ENABLED_MAIN ∧
    should_preserve_macros (Dest.path "out.docx") (some false) = false ∧
    (∀ r ∈ ((save stA (Dest.path "out.docx") (some false)).1).pkgRels,
      r.is_external = false →
      r.target ∈ partsNames (save stA (Dest.path "out.docx") (some false)).1) :=
  ⟨by decide, by decide,
    (c1_integrity_after_strip stA (Dest.path "out.docx") (some false)
      (by decide) (by decide)).1⟩

/-- Claim C2 (Scenario A): saving `stA` with `preserve_macros=False`
yields the macro-free content type, removes `rId7` from the document
part's relationships, removes the VBA-project part from the package's
part set, and removes the `w:control` element from the markup. -/
theorem c2_scenarioA :
    ctOf (save stA (Dest.path "out.docx") (some false)).1 = CT_WML_DOCUMENT_MAIN ∧
    ((relsOfName (save stA (Dest.path "out.docx") (some false)).1
      "/word/document.xml").filter (fun r => r.rId == "rId7")) = [] ∧
    "/word/vbaProject.bin" ∉ partsNames (save stA (Dest.path "out.docx") (some false)).1 ∧
    xpathSelfControlIds "rId7"
      ((save stA (Dest.path "out.docx") (some false)).1).docElement = [] := by
  refine ⟨by decide, by decide, by decide, by decide⟩

/-- Claim C3 counterexample: a stripping run on `stB` does convert the
package (content type becomes the macro-free type), yet a macro-typed
relationship remains: the header part is still in the part set and still
holds a relationship whose reltype is the VBA-project macro reltype. -/
theorem c3_counterexample :
    ctOf (save stB (Dest.path "o.docx") (some false)).1 = CT_WML_DOCUMENT_MAIN ∧
    "/word/header1.xml" ∈ partsNames (save stB (Dest.path "o.docx") (some false)).1 ∧
    ((relsOfName (save stB (Dest.path "o.docx") (some false)).1
      "/word/header1.xml").filter (fun r => macroReltypes.contains r.reltype)) ≠ [] := by
  refine ⟨by decide, by decide, by decide⟩

/-- Claim C3 (amended): for a macro-enabled document with stripping
requested on both runs, running the converter twice yields the same
final part/relationship graph as running it once, and the second run
performs no mutation because the content type is no longer the
macro-enabled type; after the first run no macro-classified part remains
in the part set and no macro-reltype relationship remains on the
document part (macro-reltype relationships of other parts may survive,
see the counterexample). -/
theorem c3_idempotence_amended (st : DocState) (d₁ d₂ : Dest)
    (f₁ f₂ : Option Bool)
    (hct : ctOf st = CT_WML_DOCUMENT_MACRO_ENABLED_MAIN)
    (hp₁ : should_preserve_macros d₁ f₁ = false)
    (hp₂ : should_preserve_macros d₂ f₂ = false) :
    save ((save st d₁ f₁).1) d₂ f₂ = ((save st d₁ f₁).1, d₂) ∧
    (save ((save st d₁ f₁).1) d₂ f₂).1 = (save st d₁ f₁).1 ∧
    (∀ n ∈ partsNames (save st d₁ f₁).1,
      isMacroName (save st d₁ f₁).1 n = false) ∧
    (∀ r ∈ relsOfName (save st d₁ f₁).1 st.docName,
      macroReltypes.contains r.reltype = false) := by
  have hws := will_strip_of st d₁ f₁ hct hp₁
  have h1 : (save st d₁ f₁).1 = strippedState st := by
    rw [save_of_strip hws]
  have h2 : save (strippedState st) d₂ f₂ = (strippedState st, d₂) :=
    save_of_no_strip (will_strip_strippedState st d₂ f₂ hct)
  refine ⟨?_, ?_, ?_, ?_⟩
  · rw [h1]
    exact h2
  · rw [h1, h2]
  · intro n hn
    rw [h1] at hn ⊢
    exact no_macro_reachable_after_sweep (reaches_of_mem_partsNames hn)
  · intro r hr
    rw [h1] at hr
    exact doc_rels_no_macro_strippedState st r hr

theorem c3_idempotence_amended_witness :
    ctOf stA = CT_WML_DOCUMENT_MACRO_ENABLED_MAIN ∧
    (save ((save stA (Dest.path "a.docx") (some false)).1) (Dest.path "b.docx")
        (some false)).1 = (save stA (Dest.path "a.docx") (some false)).1 ∧
    (∀ n ∈ partsNames (save stA (Dest.path "a.docx") (some false)).1,
      isMacroName (save stA (Dest.path "a.docx") (some false)).1 n = false) :=
  ⟨by decide,
    (c3_idempotence_amended stA (Dest.path "a.docx") (Dest.path "b.docx")
      (some false) (some false) (by decide) (by decide) (by decide)).2.1,
    (c3_idempotence_amended stA (Dest.path "a.docx") (Dest.path "b.docx")
      (some false) (some false) (by decide) (by decide) (by decide)).2.2.1⟩

/-- Claim C5: when the document's content type is not the macro-enabled
type, or the preserve decision resolves to true, `save` mutates nothing:
the state and destination handed to the serializer are exactly the
inputs. -/
theorem c5_noop_guard (st : DocState) (d : Dest) (f : Option Bool)
    (h : ctOf st ≠ CT_WML_DOCUMENT_MACRO_ENABLED_MAIN ∨
      should_preserve_macros d f = true) :
    save st d f = (st, d) := by
  apply save_of_no_strip
  unfold will_strip_macros
  rcases h with h | h
  · rw [beq_eq_false_iff_ne.mpr h]
    rfl
  · rw [h]
    simp

theorem c5_noop_guard_witness :
    save stC (Dest.path "report.docm") none = (stC, Dest.path "report.docm") ∧
    save stA (Dest.path "out.docx") (some true) = (stA, Dest.path "out.docx") :=
  ⟨c5_noop_guard stC (Dest.path "report.docm") none (Or.inl (by decide)),
   c5_noop_guard stA (Dest.path "out.docx") (some true) (Or.inr (by decide))⟩

/-- Claim C9: the destination extension is rewritten `.docm` to `.docx`
(case-insensitively) exactly when stripping occurred and the destination
is a path string; when no stripping occurs the destination is handed to
the serializer unchanged, even if it ends in `.docm`; streams are never
rewritten. -/
theorem c9_extension_rewrite :
    (∀ (st : DocState) (s : String) (f : Option Bool),
      will_strip_macros st (Dest.path s) f = true →
      strEndsWith (strLower s) ".docm" = true →
      (save st (Dest.path s) f).2 = Dest.path (pyDropRight s 5 ++ ".docx")) ∧
    (∀ (st : DocState) (d : Dest) (f : Option Bool),
      will_strip_macros st d f = false → (save st d f).2 = d) ∧
    (∀ (st : DocState) (s : String) (f : Option Bool),
      will_strip_macros st (Dest.path s) f = true →
      strEndsWith (strLower s) ".docm" = false →
      (save st (Dest.path s) f).2 = Dest.path s) ∧
    (∀ (st : DocState) (f : Option Bool),
      (save st Dest.stream f).2 = Dest.stream) := by
  refine ⟨?_, ?_, ?_, ?_⟩
  · intro st s f hw he
    rw [save_of_strip hw]
    show correctedDest (Dest.path s) = _
    unfold correctedDest
    dsimp only
    rw [he]
    rfl
  · intro st d f hw
    rw [save_of_no_strip hw]
  · intro st s f hw he
    rw [save_of_strip hw]
    show correctedDest (Dest.path s) = _
    unfold correctedDest
    dsimp only
    rw [he]
    rfl
  · intro st f
    by_cases hw : will_strip_macros st Dest.stream f = true
    · rw [save_of_strip hw]
      rfl
    · rw [save_of_no_strip (Bool.not_eq_true _ ▸ hw)]

theorem c9_extension_rewrite_witness :
    (save stA (Dest.path "report.docm") (some false)).2 = Dest.path "report.docx" ∧
    (save stC (Dest.path "report.docm") none).2 = Dest.path "report.docm" := by
  constructor
  · have h := c9_extension_rewrite.1 stA "report.docm" (some false)
      (by decide) (by decide)
    rw [h]
    decide
  · have h := c9_extension_rewrite.2.1 stC (Dest.path "report.docm") none (by decide)
    rw [h]

/-- Claim C4: the preserve-macros decision is a pure function of the
explicit flag and the destination: an explicit flag wins; a stream
destination strips; a path preserves exactly when its `splitext`
extension lowercases to `.docm`; in particular `report.DOCM` with the
flag unset preserves, and other or missing extensions strip. -/
theorem c4_should_preserve_decision :
    (∀ (d : Dest) (b : Bool), should_preserve_macros d (some b) = b) ∧
    should_preserve_macros Dest.stream none = false ∧
    (∀ s : String, should_preserve_macros (Dest.path s) none =
      (strLower (splitextExt s) == ".docm")) ∧
    should_preserve_macros (Dest.path "report.DOCM") none = true ∧
    should_preserve_macros (Dest.path "report.docm") none = true ∧
    should_preserve_macros (Dest.path "report.txt") none = false ∧
    should_preserve_macros (Dest.path "report") none = false ∧
    should_preserve_macros (Dest.path "archive.tar.docm") none = true := by
  refine ⟨fun d b => rfl, rfl, fun s => rfl, ?_, ?_, ?_, ?_, ?_⟩ <;> decide

/-- Claim C7: for an rId not present among the document part's
relationships, the header and footer by-rId accessors fail with the
KeyError (NotFound) condition and return the state unchanged — no
default part is fabricated. -/
theorem c7_by_rid_notfound (st : DocState) (rId : String)
    (h : (relsOfName st st.docName).find? (fun r => r.rId == rId) = none) :
    header_part st rId = (Except.error LookupErr.keyError, st) ∧
    footer_part st rId = (Except.error LookupErr.keyError, st) := by
  unfold header_part footer_part related_parts_get
  rw [h]
  exact ⟨rfl, rfl⟩

theorem c7_by_rid_notfound_witness :
    header_part stA "rId9" = (Except.error LookupErr.keyError, stA) ∧
    footer_part stA "rId9" = (Except.error LookupErr.keyError, stA) :=
  c7_by_rid_notfound stA "rId9" (by decide)

/-- Claim C10: the by-rId accessors do not validate the relationship
type: any rId present among the document part's relationships resolves
to its target without error, whatever its reltype (for example a styles
relationship is returned by `header_part`). -/
theorem c10_no_reltype_validation (st : DocState) (rId : String) (r : Rel)
    (h : (relsOfName st st.docName).find? (fun x => x.rId == rId) = some r) :
    header_part st rId = (Except.ok r.target, st) ∧
    footer_part st rId = (Except.ok r.target, st) := by
  unfold header_part footer_part related_parts_get
  rw [h]
  exact ⟨rfl, rfl⟩

theorem c10_no_reltype_validation_witness :
    header_part stD "rIdS" = (Except.ok "/word/styles.xml", stD) ∧
    footer_part stD "rIdS" = (Except.ok "/word/styles.xml", stD) :=
  c10_no_reltype_validation stD "rIdS"
    ⟨"rIdS", RT_STYLES, "/word/styles.xml", false⟩ (by decide)

/-! ## The control-removal cascade (claim C6) -/

theorem removeById_eid (i : Nat) (e : Elem) : (removeById i e).eid = e.eid := by
  cases e
  rfl

mutual
theorem mem_allIds_of_xpathSelf {rId : String} : ∀ (e : Elem) (j : Nat),
    j ∈ xpathSelfControlIds rId e → j ∈ e.allIds
  | .node i t a cs, j, hj => by
    simp only [xpathSelfControlIds] at hj
    simp only [Elem.allIds]
    rcases List.mem_append.mp hj with hj | hj
    · split at hj
      · exact List.mem_cons.mpr (Or.inl (List.mem_singleton.mp hj))
      · cases hj
    · exact List.mem_cons.mpr (Or.inr (mem_allIds_of_xpathList cs j hj))

theorem mem_allIds_of_xpathList {rId : String} : ∀ (l : ElemList) (j : Nat),
    j ∈ xpathListControlIds rId l → j ∈ ElemList.allIds l
  | .nil, j, hj => by
    simp only [xpathListControlIds] at hj
    cases hj
  | .cons c cs, j, hj => by
    simp only [xpathListControlIds] at hj
    simp only [ElemList.allIds]
    rcases List.mem_append.mp hj with hj | hj
    · exact List.mem_append.mpr (Or.inl (mem_allIds_of_xpathSelf c j hj))
    · exact List.mem_append.mpr (Or.inr (mem_allIds_of_xpathList cs j hj))
end

/-- Every xpath `.//` match is a proper descendant of the search root,
so (in a tree with distinct node identities) never the root itself: the
element always has a parent when the cascade reaches it. -/
theorem xpath_match_ne_root {rId : String} {e : Elem} (h : e.allIds.Nodup) :
    ∀ j ∈ xpathControlIds rId e, j ≠ e.eid := by
  cases e with
  | node i t a cs =>
    intro j hj he
    have hmem : j ∈ ElemList.allIds cs :=
      mem_allIds_of_xpathList cs j hj
    simp only [Elem.allIds] at h
    have hnot : i ∉ ElemList.allIds cs := (List.nodup_cons.mp h).1
    rw [show j = i from he] at hmem
    exact hnot hmem

theorem foldlM_removeViaParent_ok : ∀ (l : List Nat) (t : Elem),
    (∀ i ∈ l, i ≠ t.eid) →
    ∃ t', l.foldlM (fun tr i => removeViaParent tr i) t = Except.ok t' ∧
      t'.eid = t.eid := by
  intro l
  induction l with
  | nil => exact fun t _ => ⟨t, rfl, rfl⟩
  | cons i rest ih =>
    intro t h
    have hi : i ≠ t.eid := h i (List.mem_cons_self i rest)
    have hstep : removeViaParent t i = .ok (removeById i t) := by
      unfold removeViaParent
      rw [if_neg]
      intro hb
      exact hi (beq_iff_eq.mp hb)
    have heid := removeById_eid i t
    obtain ⟨t', ht', he'⟩ := ih (removeById i t)
      (fun j hj => heid ▸ h j (List.mem_cons_of_mem i hj))
    refine ⟨t', ?_, he'.trans heid⟩
    rw [List.foldlM_cons, hstep]
    exact ht'

/-- Claim C6 counterexample: the removal the cascade performs,
`control_elem.getparent().remove(control_elem)`, is not tolerant of an
already-detached (parentless) element: on a matching element that is the
root of its tree, `getparent()` is `None` and the operation raises
`AttributeError` rather than being a no-op. -/
theorem c6_counterexample :
    isControlRef "rId7" (.node 5 "w:control" [("r:id", "rId7")] .nil) = true ∧
    removeViaParent (.node 5 "w:control" [("r:id", "rId7")] .nil) 5 =
      .error "AttributeError: NoneType object has no attribute remove" :=
  ⟨by decide, rfl⟩

/-- Claim C6 (amended): the cascade never encounters a parentless
matching element — every xpath `.//` match is a proper descendant of the
document root and so has a parent — and therefore the cascade always
completes without error. -/
theorem c6_cascade_completes (rId : String) (e : Elem)
    (h : e.allIds.Nodup) :
    (∀ j ∈ xpathControlIds rId e, j ≠ e.eid) ∧
    ∃ e', removeControlCascade rId e = Except.ok e' := by
  refine ⟨xpath_match_ne_root h, ?_⟩
  obtain ⟨t', ht', _⟩ := foldlM_removeViaParent_ok (xpathControlIds rId e) e
    (xpath_match_ne_root h)
  exact ⟨t', ht'⟩

/-- The Scenario A document markup, used to exercise the cascade. -/
def elemW : Elem :=
  .node 0 "w:document" []
    (.cons (.node 1 "w:body" []
      (.cons (.node 2 "w:control" [("r:id", "rId7")] .nil) .nil)) .nil)

theorem c6_cascade_completes_witness :
    elemW.allIds.Nodup ∧
    ∃ e', removeControlCascade "rId7" elemW = Except.ok e' :=
  ⟨by decide, (c6_cascade_completes "rId7" elemW (by decide)).2⟩

/-! ## The lazy singleton accessors (claim C8) -/

theorem lookupPart_append_of_some {store : List Part} {n : String} {p : Part}
    (h : lookupPart store n = some p) (l : List Part) :
    lookupPart (store ++ l) n = some p := by
  unfold lookupPart at *
  rw [List.find?_append, h]
  rfl

theorem lookupPart_append_of_none {store : List Part} {n : String}
    (h : lookupPart store n = none) (l : List Part) :
    lookupPart (store ++ l) n = lookupPart l n := by
  unfold lookupPart at *
  rw [List.find?_append, h]
  rfl

theorem addDefaultPart_pkgLE (st : DocState) (name ct : String) :
    PkgLE st (addDefaultPart st name ct) := by
  refine ⟨List.Sublist.refl _, ?_⟩
  intro n p hp
  exact ⟨p, lookupPart_append_of_some hp _, rfl, List.Sublist.refl _⟩

theorem relate_to_pkgLE (st : DocState) (target rt : String) :
    PkgLE st (relate_to st target rt) := by
  apply pkgLE_updatePart_grow
  · intro p
    rfl
  · intro p
    rfl
  · intro p
    exact List.sublist_append_left p.rels _

/-- The state produced by the miss branch of `lazySingleton`. -/
def missState (st : DocState) (rt name ct : String) : DocState :=
  relate_to (addDefaultPart st name ct) name rt

theorem lazySingleton_of_found {st : DocState} {rt name ct p : String}
    (h : part_related_by st rt = some p) :
    lazySingleton st rt name ct = (p, st) := by
  unfold lazySingleton
  rw [h]

theorem lazySingleton_of_miss {st : DocState} {rt name ct : String}
    (h : part_related_by st rt = none) :
    lazySingleton st rt name ct = (name, missState st rt name ct) := by
  unfold lazySingleton
  rw [h]
  rfl

/-- Everything the miss branch guarantees: the default part object is in
the store, the document part gained exactly one relationship of the
requested type (targeting the new part), the new part joined the
package's part set, and a second lookup finds the new relationship. -/
theorem missState_spec {st : DocState} {rt name : String} (ct : String)
    (hmiss : part_related_by st rt = none)
    {dp : Part} (hdoc : lookupPart st.store st.docName = some dp)
    (hfresh : lookupPart st.store name = none)
    (hreach : st.docName ∈ partsNames st) :
    lookupPart (missState st rt name ct).store name = some ⟨name, ct, []⟩ ∧
    name ∈ partsNames (missState st rt name ct) ∧
    ((relsOfName (missState st rt name ct) st.docName).filter
      (fun r => r.reltype == rt)).length = 1 ∧
    part_related_by (missState st rt name ct) rt = some name := by
  have hne : st.docName ≠ name := by
    intro e
    rw [e, hfresh] at hdoc
    cases hdoc
  -- the new relationship appended to the document part
  have hdoc1 : lookupPart (addDefaultPart st name ct).store st.docName = some dp :=
    lookupPart_append_of_some hdoc _
  have hdoc2 : lookupPart (missState st rt name ct).store st.docName =
      some { dp with rels := dp.rels ++ [⟨nextRId dp.rels, rt, name, false⟩] } := by
    show lookupPart (updatePart _ _ _).store _ = _
    rw [lookupPart_updatePart
      (f := fun p : Part =>
        { p with rels := p.rels ++ [⟨nextRId p.rels, rt, name, false⟩] })
      (fun _ => rfl)]
    rw [if_pos (show st.docName = (addDefaultPart st name ct).docName from rfl), hdoc1]
    rfl
  have hrels : relsOfName (missState st rt name ct) st.docName =
      dp.rels ++ [⟨nextRId dp.rels, rt, name, false⟩] := by
    unfold relsOfName
    rw [hdoc2]
    rfl
  have hfind : dp.rels.find? (fun r => r.reltype == rt) = none := by
    unfold part_related_by relsOfName at hmiss
    rw [hdoc] at hmiss
    simp only [Option.map_some', Option.getD_some] at hmiss
    exact Option.map_eq_none'.mp hmiss
  refine ⟨?_, ?_, ?_, ?_⟩
  · -- the default part object is in the store, unchanged
    have h1 : lookupPart (addDefaultPart st name ct).store name =
        some ⟨name, ct, []⟩ := by
      rw [show (addDefaultPart st name ct).store = st.store ++ [⟨name, ct, []⟩] from rfl,
        lookupPart_append_of_none hfresh]
      unfold lookupPart
      rw [List.find?_cons_of_pos]
      exact beq_self_eq_true name
    show lookupPart (updatePart _ _ _).store _ = _
    rw [lookupPart_updatePart
      (f := fun p : Part =>
        { p with rels := p.rels ++ [⟨nextRId p.rels, rt, name, false⟩] })
      (fun _ => rfl)]
    rw [if_neg (fun e => hne e.symm), h1]
  · -- the new part is reachable: one step from the document part
    have hle : PkgLE st (missState st rt name ct) :=
      (addDefaultPart_pkgLE st name ct).trans (relate_to_pkgLE _ name rt)
    have hreach' : Reaches (missState st rt name ct) st.docName :=
      (reaches_of_mem_partsNames hreach).mono hle
    have hstep : Reaches (missState st rt name ct) name := by
      have := Reaches.step (r := ⟨nextRId dp.rels, rt, name, false⟩) hreach' hdoc2
        (List.mem_append_right _ (List.mem_singleton_self _)) rfl
      exact this
    exact mem_partsNames_of_reaches hstep
  · -- exactly one relationship of the requested type
    rw [hrels, List.filter_append]
    have h0 : dp.rels.filter (fun r => r.reltype == rt) = [] :=
      List.filter_eq_nil_iff.mpr (List.find?_eq_none.mp hfind)
    rw [h0]
    simp
  · -- the second call finds the new relationship
    unfold part_related_by
    rw [show (missState st rt name ct).docName = st.docName from rfl,
      hrels, List.find?_append, hfind]
    simp

/-- The contract claim C8 states for one lazy singleton accessor. -/
def accessorSpec (acc : DocState → String × DocState) (rt name ct : String) :
    Prop :=
  ∀ st : DocState,
    (∀ p, part_related_by st rt = some p →
      acc st = (p, st) ∧ acc (acc st).2 = acc st) ∧
    (part_related_by st rt = none →
      ∀ dp : Part, lookupPart st.store st.docName = some dp →
      lookupPart st.store name = none →
      st.docName ∈ partsNames st →
      (acc st).1 = name ∧
      lookupPart ((acc st).2).store name = some ⟨name, ct, []⟩ ∧
      name ∈ partsNames (acc st).2 ∧
      ((relsOfName (acc st).2 st.docName).filter
        (fun r => r.reltype == rt)).length = 1 ∧
      acc ((acc st).2) = ((acc st).1, (acc st).2))

theorem lazySingleton_accessorSpec (rt name ct : String) :
    accessorSpec (fun st => lazySingleton st rt name ct) rt name ct := by
  intro st
  constructor
  · intro p h
    have h1 : lazySingleton st rt name ct = (p, st) := lazySingleton_of_found h
    dsimp only
    refine ⟨h1, ?_⟩
    rw [h1]
    exact h1
  · intro hmiss dp hdoc hfresh hreach
    have h1 : lazySingleton st rt name ct = (name, missState st rt name ct) :=
      lazySingleton_of_miss hmiss
    obtain ⟨hs1, hs2, hs3, hs4⟩ := missState_spec ct hmiss hdoc hfresh hreach
    dsimp only
    rw [h1]
    exact ⟨rfl, hs1, hs2, hs3, lazySingleton_of_found hs4⟩

/-- Claim C8: each singleton lazy accessor (settings, styles, comments,
numbering) returns the already-related part unchanged when one exists
(and a repeated call returns the identical object); on a miss it
constructs the default part, adds it to the package, creates the
relationship exactly once, and returns the new part, so a second call
takes the found path and performs no further mutation. -/
theorem c8_singleton_accessors :
    accessorSpec settings_part RT_SETTINGS "/word/settings.xml" CT_WML_SETTINGS ∧
    accessorSpec styles_part RT_STYLES "/word/styles.xml" CT_WML_STYLES ∧
    accessorSpec comments_part RT_COMMENTS "/word/comments.xml" CT_WML_COMMENTS ∧
    accessorSpec numbering_part RT_NUMBERING "/word/numbering.xml" CT_WML_NUMBERING :=
  ⟨lazySingleton_accessorSpec _ _ _, lazySingleton_accessorSpec _ _ _,
   lazySingleton_accessorSpec _ _ _, lazySingleton_accessorSpec _ _ _⟩

theorem c8_singleton_accessors_witness :
    (settings_part stA).1 = "/word/settings.xml" ∧
    "/word/settings.xml" ∈ partsNames (settings_part stA).2 ∧
    settings_part ((settings_part stA).2) =
      ((settings_part stA).1, (settings_part stA).2) := by
  have h := (c8_singleton_accessors.1 stA).2 (by decide)
    ⟨"/word/document.xml", CT_WML_DOCUMENT_MACRO_ENABLED_MAIN,
      [⟨"rId7", RT_VBA_PROJECT, "/word/vbaProject.bin", false⟩]⟩
    (by decide) (by decide) (by decide)
  exact ⟨h.1, h.2.2.1, h.2.2.2.2⟩

end DocxDocm
